import Mathlib

/-!
Verification of the entry-construction and validation core of the `synk`
time-tracking assistant (`logic.py`), shallowly embedded in Lean 4.

Modelling conventions:
* Python floats are modelled as exact rationals (`ℚ`); Python `round` is
  round-half-to-even (`pyRound` below); `int(x)` truncates toward zero.
* Strings are Lean `String`s; Python digit tests are modelled over ASCII
  decimal digits, and Python string comparison is lexicographic comparison
  of code points (`strLe`).
* Regular-expression matchers (`re.search`) are modelled as oracle
  predicates `String → Bool`; a configured-but-non-compiling pattern is
  modelled by the `Option (Option _)` layering documented at `TaskConfig`.
* Network calls (Moco/JIRA HTTP requests) are modelled as oracle functions
  supplied as parameters; `save_entry` additionally returns the trace of
  write operations it issued, in order.
-/

namespace Synk

/-- Numeric value of an ASCII digit character. -/
def digitVal (c : Char) : Nat := c.toNat - '0'.toNat

/-- The ASCII digit character for `k ≤ 9` (sentinel otherwise). -/
def digitChar (k : Nat) : Char := "0123456789".data.getD k '*'

/-- Python `"%02d" % n` for `n ≤ 99`: two decimal digits. -/
def two_digit (n : Nat) : String := ⟨[digitChar (n / 10), digitChar (n % 10)]⟩

/-- Python `str.zfill(4)` on a digit string: pad on the left with zeros. -/
def zfill4 (cs : List Char) : List Char := List.replicate (4 - cs.length) '0' ++ cs

/-- Hour field of a (padded) 3-4 digit time string: `int(time_str[:2])`. -/
def hourOf (s : String) : Nat :=
  10 * digitVal ((zfill4 s.data).getD 0 '0') + digitVal ((zfill4 s.data).getD 1 '0')

/-- Minute field of a (padded) 3-4 digit time string: `int(time_str[2:])`. -/
def minuteOf (s : String) : Nat :=
  10 * digitVal ((zfill4 s.data).getD 2 '0') + digitVal ((zfill4 s.data).getD 3 '0')

/-- Embedding of `parse_and_validate_time_input` (logic.py:53-69): a string of
3 or 4 decimal digits is zero-padded to 4 digits and split into hour/minute;
returns the normalized `"HH:MM"` string, or `none` on any failure. -/
def parse_and_validate_time_input (s : String) : Option String :=
  if s.data.all Char.isDigit ∧ 3 ≤ s.length ∧ s.length ≤ 4 then
    if hourOf s ≤ 23 ∧ minuteOf s ≤ 59 then
      some (two_digit (hourOf s) ++ ":" ++ two_digit (minuteOf s))
    else none
  else none

/-- Embedding of `datetime.strptime(s, "%H:%M")` restricted to the normalized
two-digit form this program always passes: the minutes-since-midnight value,
or `none` when the string is not a valid `HH:MM` time. -/
def parseHHMM (s : String) : Option Nat :=
  match s.data with
  | [h1, h2, c, m1, m2] =>
    if h1.isDigit ∧ h2.isDigit ∧ c = ':' ∧ m1.isDigit ∧ m2.isDigit then
      let h := 10 * digitVal h1 + digitVal h2
      let m := 10 * digitVal m1 + digitVal m2
      if h ≤ 23 ∧ m ≤ 59 then some (60 * h + m) else none
    else none
  | _ => none

/-- Embedding of `datetime.strftime("%H:%M")` on a datetime that lies `n`
minutes after some midnight. -/
def formatHHMM (n : Nat) : String := two_digit (n / 60 % 24) ++ ":" ++ two_digit (n % 60)

/-- Python `round` on a rational: round half to even (banker's rounding). -/
def pyRound (q : ℚ) : ℤ :=
  if q - Rat.floor q < 1/2 then Rat.floor q
  else if q - Rat.floor q > 1/2 then Rat.floor q + 1
  else if Rat.floor q % 2 = 0 then Rat.floor q else Rat.floor q + 1

/-- Python `round(x, 4)`: round to 4 decimal places (half to even). -/
def round4 (q : ℚ) : ℚ := (pyRound (q * 10000) : ℚ) / 10000

/-- Python `int(x)` on a rational: truncation toward zero. -/
def pyInt (q : ℚ) : ℤ := if q < 0 then -Rat.floor (-q) else Rat.floor q

/-- The rounding step of `calculate_duration` (logic.py:234-241): if an
increment is configured and positive, round the duration to the increment;
if that collapses a positive duration to zero, use one increment instead. -/
def applyRounding (incOpt : Option ℚ) (d : ℚ) : ℚ :=
  match incOpt with
  | some inc =>
    if 0 < inc then
      let rounded := (pyRound (d / inc) : ℚ) * inc
      if rounded = 0 ∧ 0 < d then inc else rounded
    else d
  | none => d

/-- A per-project duration rule: optional min/max bounds in minutes
(a missing field models an absent dictionary key). -/
structure DurationRule where
  min : Option ℚ
  max : Option ℚ
deriving DecidableEq

/-- The slice of a project dictionary used by the duration/validation logic:
`project['name']` and `project.get('customer', {}).get('name', ...)`. -/
structure Project where
  name : String
  customer : Option String
deriving DecidableEq

/-- The project key used for rule lookup (logic.py:261-264):
`"{customer_name} / {project_name}"` with customer defaulting to
`'No Customer'`. -/
def projectKey (p : Project) : String := p.customer.getD "No Customer" ++ " / " ++ p.name

/-- The configuration slice consumed by `calculate_duration` and
`validate_duration_rules`; `none` models an absent (or falsy) setting. -/
structure Config where
  duration_rounding_increment : Option ℚ
  min_duration_minutes : Option ℚ
  max_duration_minutes : Option ℚ
  project_duration_rules : List (String × DurationRule)

/-- Python `dict.get` on the project-rules mapping. -/
def lookupRule (rules : List (String × DurationRule)) (k : String) : Option DurationRule :=
  (rules.find? (fun r => r.1 = k)).map (·.2)

/-- Errors raised (as `ValueError`) by the duration calculator; the payload
of `tooShort`/`tooLong` is the bound named in the message. -/
inductive CalcError where
  | badStart
  | endBeforeStart
  | invalidFormat
  | tooShort (minMinutes : ℚ)
  | tooLong (maxMinutes : ℚ)
deriving DecidableEq

/-- Resolution of the effective min/max bounds (logic.py:257-270): a project
rule's `min`/`max` field each overrides the corresponding global bound
independently (`dict.get(key, default)`), and the project lookup happens only
when a project was passed and the (truthy) rules mapping is non-empty. -/
def effectiveBounds (cfg : Config) (project : Option Project) : Option ℚ × Option ℚ :=
  match project with
  | some p =>
    if cfg.project_duration_rules.isEmpty then
      (cfg.min_duration_minutes, cfg.max_duration_minutes)
    else
      match lookupRule cfg.project_duration_rules (projectKey p) with
      | some rule =>
        (rule.min.or cfg.min_duration_minutes, rule.max.or cfg.max_duration_minutes)
      | none => (cfg.min_duration_minutes, cfg.max_duration_minutes)
  | none => (cfg.min_duration_minutes, cfg.max_duration_minutes)

/-- The two bound checks of logic.py:274-278 on the minute-resolution
duration `dm`. -/
def checkBounds (minB maxB : Option ℚ) (dm : ℚ) : Except CalcError Unit :=
  match minB with
  | some m =>
    if dm < m then Except.error (CalcError.tooShort m)
    else
      match maxB with
      | some mx => if mx < dm then Except.error (CalcError.tooLong mx) else Except.ok ()
      | none => Except.ok ()
  | none =>
    match maxB with
    | some mx => if mx < dm then Except.error (CalcError.tooLong mx) else Except.ok ()
    | none => Except.ok ()

/-- Embedding of `validate_duration_rules` (logic.py:252-278): resolve the
effective min/max bounds, then check the minute-resolution duration against
them. -/
def validate_duration_rules (cfg : Config) (duration_hours : ℚ) (project : Option Project) :
    Except CalcError Unit :=
  checkBounds (effectiveBounds cfg project).1 (effectiveBounds cfg project).2
    (duration_hours * 60)

/-- Decimal value of a list of ASCII digits. -/
def natOfDigits (cs : List Char) : Nat := cs.foldl (fun a c => 10 * a + digitVal c) 0

/-- Model of Python `float(s)` restricted to the plain non-negative decimal
literals this program meets: digits with at most one dot and at least one
digit. (Python `float` also accepts signs, exponents, `inf`/`nan` and
surrounding whitespace; a sign can only lead to the non-positive-duration
`ValueError`, which the caller maps to the same `invalidFormat` error as a
parse failure, so the restriction does not change observable behaviour.) -/
def parseDecimal (s : String) : Option ℚ :=
  let cs := s.data
  let intPart := cs.takeWhile (fun c => c ≠ '.')
  let fracPart := (cs.dropWhile (fun c => c ≠ '.')).drop 1
  if (cs.all fun c => c.isDigit || c = '.') ∧ cs.any Char.isDigit ∧
      fracPart.all (fun c => c ≠ '.') then
    some ((natOfDigits intPart : ℚ) + (natOfDigits fracPart : ℚ) / 10 ^ fracPart.length)
  else none

/-- The end-token branch of `calculate_duration` (logic.py:219-232): an
end-token that parses as a time must lie strictly after the start; otherwise
it must parse as a positive decimal number of hours. `s` is the start time in
minutes since midnight. -/
def rawDurationOf (s : Nat) (end_input : String) : Except CalcError ℚ :=
  match parse_and_validate_time_input end_input with
  | some pe =>
    match parseHHMM pe with
    | some e =>
      if e ≤ s then Except.error CalcError.endBeforeStart
      else Except.ok (((e - s : Nat) : ℚ) / 60)
    | none => Except.error CalcError.badStart
  | none =>
    match parseDecimal end_input with
    | some d => if d ≤ 0 then Except.error CalcError.invalidFormat else Except.ok d
    | none => Except.error CalcError.invalidFormat

/-- Embedding of `TimeTracker.calculate_duration` (logic.py:215-250): derive
the raw duration from the end-token, apply configured rounding, recompute the
end time from the start plus the (possibly rounded) duration — truncated to
the minute and taken within the day, as `strftime("%H:%M")` does — and
validate duration rules on the final duration. -/
def calculate_duration (cfg : Config) (start_time_str end_input : String)
    (project : Option Project) : Except CalcError (String × ℚ) :=
  match parseHHMM start_time_str with
  | none => Except.error CalcError.badStart
  | some s =>
    match rawDurationOf s end_input with
    | Except.error e => Except.error e
    | Except.ok raw =>
      match validate_duration_rules cfg (applyRounding cfg.duration_rounding_increment raw)
          project with
      | Except.ok _ =>
        Except.ok
          (formatHHMM
            ((Rat.floor
              ((s : ℚ) + applyRounding cfg.duration_rounding_increment raw * 60)).toNat % 1440),
            applyRounding cfg.duration_rounding_increment raw)
      | Except.error e => Except.error e

/-- A raw Moco task as consumed by `get_task_choices`: name and billable
flag. -/
structure Task where
  name : String
  billable : Bool
deriving DecidableEq

/-- A task enriched with its derived `display_name` (the `t.copy()` plus
`display_name` assignment of logic.py:160-164). -/
structure DTask where
  name : String
  billable : Bool
  display_name : String
deriving DecidableEq

/-- Configuration slice for `get_task_choices`. `task_filter_regex`:
`none` = not configured (or empty, hence falsy); `some none` = configured but
the pattern does not compile (`re.error` on first use); `some (some f)` =
configured and compiling, with `f` the `re.search` truthiness oracle.
`default_task_name`: `none` = not configured, `some f` = the match oracle of
a compiling pattern. -/
structure TaskConfig where
  task_filter_regex : Option (Option (String → Bool))
  default_task_name : Option (String → Bool)

/-- Python `str.strip()` on a character list: drop whitespace from both
ends. -/
def stripEnds (cs : List Char) : List Char :=
  ((cs.dropWhile Char.isWhitespace).reverse.dropWhile Char.isWhitespace).reverse

/-- Python `t.get('name', '').split('|')[0].strip()`: the text before the
first `'|'` (the whole string when there is none), stripped of surrounding
whitespace. -/
def baseNameOf (name : String) : String :=
  ⟨stripEnds (name.data.takeWhile (fun c => c ≠ '|'))⟩

/-- Python `str.lower()` (ASCII case mapping). -/
def lowerStr (s : String) : String := ⟨s.data.map Char.toLower⟩

/-- Python `str.upper()` (ASCII case mapping). -/
def upperStr (s : String) : String := ⟨s.data.map Char.toUpper⟩

/-- The display task built at logic.py:160-164: base name for billable tasks,
a space plus the parenthesized base name for non-billable ones. -/
def mkDisplay (t : Task) : DTask :=
  ⟨t.name, t.billable,
    if t.billable then baseNameOf t.name else " (" ++ baseNameOf t.name ++ ")"⟩

/-- Lexicographic code-point comparison of character lists: the order Python
uses on strings. -/
def charsLe : List Char → List Char → Bool
  | [], _ => true
  | _ :: _, [] => false
  | a :: as, b :: bs =>
    if a.toNat < b.toNat then true
    else if b.toNat < a.toNat then false
    else charsLe as bs

/-- String comparison in Python order. -/
def strLe (a b : String) : Bool := charsLe a.data b.data

/-- The sort comparator of logic.py:166: ascending in the key
`(not billable, display_name.lower())`, compared as Python compares tuples. -/
def taskLE (a b : DTask) : Bool :=
  (a.billable && !b.billable) ||
    (a.billable == b.billable && strLe (lowerStr a.display_name) (lowerStr b.display_name))

/-- The tail of `get_task_choices` after filtering (logic.py:159-171): build
display tasks, sort them stably by `taskLE`, then pick the default as the
first task of the **sorted** display list whose raw name matches the
configured default pattern. -/
def finishTasks (cfg : TaskConfig) (tasks_original : List Task) :
    List DTask × Option DTask :=
  let tasks_display := (tasks_original.map mkDisplay).mergeSort taskLE
  let default_task :=
    match cfg.default_task_name with
    | some f => tasks_display.find? (fun t => f t.name)
    | none => none
  (tasks_display, default_task)

/-- Embedding of `TimeTracker.get_task_choices` (logic.py:145-171). The
filtering comprehension calls `re.search` once per task, so a non-compiling
pattern raises (and is converted to a `SynkError`) exactly when at least one
task is present; with no task the pattern is never compiled. -/
def get_task_choices (cfg : TaskConfig) (tasks : List Task) :
    Except String (List DTask × Option DTask) :=
  match cfg.task_filter_regex with
  | none => Except.ok (finishTasks cfg tasks)
  | some (some f) => Except.ok (finishTasks cfg (tasks.filter (fun t => !f t.name)))
  | some none =>
    if tasks.isEmpty then Except.ok (finishTasks cfg [])
    else Except.error "Invalid TASK_FILTER_REGEX in .env file"

/-- Modelled from the spec (§4.3), for comparison with the code: the default
task is the first task of the filtered, **unsorted** display set whose raw
name matches the configured default-name pattern. -/
def default_from_unsorted_spec (cfg : TaskConfig) (tasks_filtered : List Task) : Option DTask :=
  match cfg.default_task_name with
  | some f => (tasks_filtered.map mkDisplay).find? (fun t => f t.name)
  | none => none

/-- A JIRA issue as returned by the exact-key search (key and summary). -/
structure JiraIssue where
  key : String
  summary : String
deriving DecidableEq

/-- One configured JIRA instance: its key set, an identifier standing for its
client object, and the exact-key search as an oracle from the searched key to
the (at most single-result) issue list. A transport failure during the search
is reported as a warning and an empty list in the source, so it is covered by
the `[]` case of the oracle. -/
structure JiraInstance where
  name : String
  keys : List String
  clientId : Nat
  searchExact : String → List JiraIssue

/-- Non-error outcomes of `verify_jira_ticket`: a resolved issue (key, owning
client, summary), or the `None` return for "no matching issue". -/
inductive VerifyOutcome where
  | found (issueKey : String) (clientId : Nat) (summary : String)
  | notFound
deriving DecidableEq

/-- Python `jira_id_input.split('-')[0].upper()`: the text before the first
`'-'` (the whole string when there is none), uppercased. -/
def prefixOf (input : String) : String :=
  upperStr ⟨input.data.takeWhile (fun c => c ≠ '-')⟩

/-- The message of the `SynkError` raised when no instance covers a key. -/
def noInstanceMsg (pfx : String) : String :=
  "No JIRA instance configured for project key '" ++ pfx ++ "'. Check your .env file."

/-- Embedding of `TimeTracker.verify_jira_ticket` (logic.py:173-193): select
the first configured instance whose key set contains the ticket's uppercased
dash-prefix (error when none does), then run the single-result exact-key
search against it. -/
def verify_jira_ticket (instances : List JiraInstance) (input : String) :
    Except String VerifyOutcome :=
  match instances.find? (fun j => j.keys.contains (prefixOf input)) with
  | none => Except.error (noInstanceMsg (prefixOf input))
  | some inst =>
    match inst.searchExact (upperStr input) with
    | [] => Except.ok VerifyOutcome.notFound
    | issue :: _ => Except.ok (VerifyOutcome.found issue.key inst.clientId issue.summary)

/-- The entry dictionary passed to `save_entry`. `start_time`/`end_time` are
the validated `HH:MM` strings the interactive flow always stores; `jira_id`
and `comment` model optional keys; `has_jira_issue` is the truthiness of
`entry_data.get("jira_issue")` and `jira_issue_key` stands for the issue
object passed to `add_worklog`. -/
structure EntryData where
  start_time : String
  end_time : String
  jira_id : Option String
  comment : Option String
  project_id : Int
  task_id : Int
  duration_hours : ℚ
  has_jira_issue : Bool
  jira_issue_key : String

/-- Python `s.replace(':', '')`. -/
def stripColons (s : String) : String := ⟨s.data.filter (fun c => c ≠ ':')⟩

/-- The `(HHMM-HHMM)` time tag built at logic.py:282-284. -/
def time_part (e : EntryData) : String :=
  "(" ++ stripColons e.start_time ++ "-" ++ stripColons e.end_time ++ ")"

/-- The canonical description (logic.py:285-286): space-joined truthy parts in
the fixed order jira_id, comment, time tag. -/
def descriptionOf (e : EntryData) : String :=
  String.intercalate " "
    ((([e.jira_id, e.comment].filterMap id).filter (fun s => s ≠ "")) ++ [time_part e])

/-- The Moco activity-creation payload (logic.py:289-295). -/
structure MocoPayload where
  date : String
  project_id : Int
  task_id : Int
  hours : ℚ
  description : String
deriving DecidableEq

/-- The payload built for the Moco create call: hours rounded to 4 decimal
places. -/
def mocoPayloadOf (work_date : String) (e : EntryData) : MocoPayload :=
  ⟨work_date, e.project_id, e.task_id, round4 e.duration_hours, descriptionOf e⟩

/-- The JIRA worklog payload (logic.py:301-309). `started` is modelled by the
date and start-time strings; the timezone attachment of `astimezone()` is not
modelled. -/
structure WorklogPayload where
  issue : String
  timeSpentSeconds : Int
  comment : String
  started_date : String
  started_hhmm : String
deriving DecidableEq

/-- Python `f"{entry_data.get('comment', '')} {time_part}".strip()`. -/
def jiraCommentOf (e : EntryData) : String := (e.comment.getD "" ++ " " ++ time_part e).trim

/-- The worklog payload passed to `add_worklog`. -/
def worklogPayloadOf (work_date : String) (e : EntryData) : WorklogPayload :=
  ⟨e.jira_issue_key, pyInt (e.duration_hours * 3600), jiraCommentOf e, work_date, e.start_time⟩

/-- External write operations `save_entry` can issue, in issue order. -/
inductive WriteOp where
  | mocoCreate (p : MocoPayload)
  | jiraWorklog (w : WorklogPayload)
deriving DecidableEq

/-- How a `save_entry` call terminates: normally, with an application-level
`SynkError`, or with an unhandled Python exception. -/
inductive SaveResult where
  | ok
  | synkError (msg : String)
  | uncaught (msg : String)
deriving DecidableEq

/-- Embedding of `TimeTracker.save_entry` (logic.py:280-312). The two network
writes are oracles returning `none` on success and `some errText` on failure
(an HTTP error for Moco, a `JIRAError` for the worklog). The returned list is
the trace of write operations issued, in order; no operation ever deletes or
rolls back a previous write. A worklog failure is re-raised as a `SynkError`
with the distinct "Failed to add JIRA worklog" message; the `strptime` call on
the start time happens before the worklog attempt and an invalid start time
would escape as an unhandled `ValueError`. -/
def save_entry (work_date : String) (e : EntryData)
    (postResult : MocoPayload → Option String)
    (worklogResult : WorklogPayload → Option String) :
    List WriteOp × SaveResult :=
  match postResult (mocoPayloadOf work_date e) with
  | some err =>
    ([WriteOp.mocoCreate (mocoPayloadOf work_date e)],
      SaveResult.synkError ("Moco API Error creating entry: " ++ err))
  | none =>
    if e.has_jira_issue then
      match parseHHMM e.start_time with
      | none =>
        ([WriteOp.mocoCreate (mocoPayloadOf work_date e)],
          SaveResult.uncaught "ValueError: time data does not match format %H:%M")
      | some _ =>
        match worklogResult (worklogPayloadOf work_date e) with
        | some err =>
          ([WriteOp.mocoCreate (mocoPayloadOf work_date e),
            WriteOp.jiraWorklog (worklogPayloadOf work_date e)],
            SaveResult.synkError ("Failed to add JIRA worklog: " ++ err))
        | none =>
          ([WriteOp.mocoCreate (mocoPayloadOf work_date e),
            WriteOp.jiraWorklog (worklogPayloadOf work_date e)], SaveResult.ok)
    else ([WriteOp.mocoCreate (mocoPayloadOf work_date e)], SaveResult.ok)

/-- An activity row as consumed by `get_last_activity`: the `id` key may be
absent (`x.get('id', 0)`); `description` stands for the rest of the record. -/
structure Activity where
  id : Option Nat
  description : String
deriving DecidableEq

/-- The sort key `x.get('id', 0)`. -/
def activityIdKey (a : Activity) : Nat := a.id.getD 0

/-- Embedding of `TimeTracker.get_last_activity` (logic.py:81-89) applied to
the fetched activity list: `None` for an empty day, else the head of the list
sorted by descending id (Python's stable sort with `reverse=True`). -/
def get_last_activity (activities : List Activity) : Option Activity :=
  if activities.isEmpty then none
  else (activities.mergeSort (fun a b => activityIdKey b ≤ activityIdKey a)).head?

/-- An empty configuration: no rounding, no bounds, no project rules. -/
def cfg0 : Config := ⟨none, none, none, []⟩

/-- The configuration of the project-override scenario: global minimum of 15
minutes, and a project rule defining only a 30-minute minimum. -/
def cfgC3 : Config := ⟨none, some 15, none, [("Test Customer / Test Project", ⟨some 30, none⟩)]⟩

/-- The project covered by the rule of `cfgC3`. -/
def projP : Project := ⟨"Test Project", some "Test Customer"⟩

/-- A project of the same customer with no configured rule. -/
def projQ : Project := ⟨"Other Project", some "Test Customer"⟩

/-- A task configuration with no exclusion filter and a default pattern that
matches every name (realizable as the empty regular expression). -/
def cfgC6 : TaskConfig := ⟨none, some (fun _ => true)⟩

/-- Two billable tasks whose configured order is the reverse of their
alphabetical order. -/
def tasksC6 : List Task := [⟨"Z", true⟩, ⟨"A", true⟩]

/-- A task configuration whose exclusion pattern is configured but does not
compile. -/
def cfgBadRegex : TaskConfig := ⟨some none, none⟩

/-- A task configuration with no exclusion filter and no default pattern. -/
def cfgPlain : TaskConfig := ⟨none, none⟩

/-- A concrete entry with a linked ticket and valid times. -/
def e1 : EntryData :=
  ⟨"09:00", "10:30", some "PROJ-1", some "work", 11, 22, 3/2, true, "PROJ-1"⟩

/-- A Moco post oracle that always succeeds. -/
def postNone : MocoPayload → Option String := fun _ => none

/-- A worklog oracle that always fails with message "boom". -/
def wlBoom : WorklogPayload → Option String := fun _ => some "boom"

/-- A JIRA instance owning the `PROJ` key whose exact-key search knows only
`PROJ-123`. -/
def jInstA : JiraInstance :=
  ⟨"A", ["PROJ"], 7,
    fun k => if k = "PROJ-123" then [⟨"PROJ-123", "Fix it"⟩] else []⟩

/-- The computable floor used in the embedding agrees with Mathlib's. -/
theorem rat_floor_eq (q : ℚ) : Rat.floor q = ⌊q⌋ := by
  rw [Rat.floor_def', Rat.floor_def]

/-- Python rounding returns the floor or the ceiling. -/
theorem pyRound_cases (q : ℚ) : pyRound q = ⌊q⌋ ∨ pyRound q = ⌊q⌋ + 1 := by
  unfold pyRound
  rw [rat_floor_eq]
  split_ifs <;> simp

/-- Python rounding lands within both fractional distances of its argument. -/
theorem pyRound_dist (q : ℚ) :
    |(pyRound q : ℚ) - q| ≤ q - ⌊q⌋ ∧ |(pyRound q : ℚ) - q| ≤ 1 - (q - ⌊q⌋) := by
  have h1 : ((⌊q⌋ : ℤ) : ℚ) ≤ q := Int.floor_le q
  have h2 : q < ⌊q⌋ + 1 := Int.lt_floor_add_one q
  unfold pyRound
  rw [rat_floor_eq]
  split_ifs with ha hb hc <;>
    constructor <;> rw [abs_le] <;> constructor <;> push_cast <;> linarith

/-- Python rounding picks a nearest integer. -/
theorem pyRound_nearest (q : ℚ) (k : ℤ) : |(pyRound q : ℚ) - q| ≤ |(k : ℚ) - q| := by
  have hd := pyRound_dist q
  have h1 : ((⌊q⌋ : ℤ) : ℚ) ≤ q := Int.floor_le q
  have h2 : q < ⌊q⌋ + 1 := Int.lt_floor_add_one q
  rcases le_or_lt k ⌊q⌋ with hk | hk
  · have hk' : (k : ℚ) ≤ ((⌊q⌋ : ℤ) : ℚ) := by exact_mod_cast hk
    have habs : |(k : ℚ) - q| = q - k := by
      rw [abs_sub_comm, abs_of_nonneg (by linarith)]
    rw [habs]; linarith [hd.1]
  · have hk' : ((⌊q⌋ : ℤ) : ℚ) + 1 ≤ k := by exact_mod_cast hk
    have habs : |(k : ℚ) - q| = k - q := abs_of_nonneg (by linarith)
    rw [habs]; linarith [hd.2]

/-- Python rounding of a non-negative number is non-negative. -/
theorem pyRound_nonneg (q : ℚ) (h : 0 ≤ q) : 0 ≤ pyRound q := by
  have hf : 0 ≤ ⌊q⌋ := Int.floor_nonneg.2 h
  rcases pyRound_cases q with hc | hc <;> omega

/-- The rounding step never turns a positive duration into a non-positive
one. -/
theorem applyRounding_pos (incOpt : Option ℚ) (d : ℚ) (hd : 0 < d) :
    0 < applyRounding incOpt d := by
  cases incOpt with
  | none => exact hd
  | some inc =>
    simp only [applyRounding]
    split_ifs with hi hz
    · exact hi
    · have hnz : (pyRound (d / inc) : ℚ) * inc ≠ 0 := by
        intro h0; exact hz ⟨h0, hd⟩
      have hge : 0 ≤ (pyRound (d / inc) : ℚ) * inc := by
        have := pyRound_nonneg (d / inc) (div_nonneg hd.le hi.le)
        exact mul_nonneg (by exact_mod_cast this) hi.le
      exact lt_of_le_of_ne hge (Ne.symm hnz)
    · exact hd

unseal Rat.mul Rat.inv Rat.add Rat.sub in
/-- C2. For every positive raw duration and configured rounding increment
`inc > 0`, the rounding step yields a positive result; when Python's rounding
of `d / inc` is non-zero the result is that nearest multiple of `inc`
(nearest among all integer multiples), and when it is zero the result is one
increment `inc` instead of zero; in particular with increment 1/4 (0.25) and
a raw duration of 1/20 (0.05 hours) the result is 1/4. -/
theorem C2_rounding (inc d : ℚ) (hinc : 0 < inc) (hd : 0 < d) :
    0 < applyRounding (some inc) d ∧
    (pyRound (d / inc) = 0 → applyRounding (some inc) d = inc) ∧
    (pyRound (d / inc) ≠ 0 →
      applyRounding (some inc) d = (pyRound (d / inc) : ℚ) * inc ∧
      ∀ k : ℤ, |applyRounding (some inc) d - d| ≤ |(k : ℚ) * inc - d|) ∧
    applyRounding (some (1/4)) (1/20) = 1/4 := by
  refine ⟨applyRounding_pos _ _ hd, ?_, ?_, by decide⟩
  · intro h0
    simp only [applyRounding, if_pos hinc]
    rw [h0]
    simp [hd]
  · intro hne
    have hres : applyRounding (some inc) d = (pyRound (d / inc) : ℚ) * inc := by
      simp only [applyRounding, if_pos hinc]
      rw [if_neg]
      intro hcontra
      exact hne (by exact_mod_cast (mul_eq_zero.1 hcontra.1).resolve_right hinc.ne')
    refine ⟨hres, ?_⟩
    intro k
    rw [hres]
    have key : ∀ z : ℚ, z * inc - d = (z - d / inc) * inc := by
      intro z; field_simp
    rw [key ((pyRound (d / inc) : ℚ)), key ((k : ℚ)), abs_mul, abs_mul, abs_of_pos hinc]
    exact mul_le_mul_of_nonneg_right (pyRound_nearest (d / inc) k) hinc.le

/-- Witness for C2: positivity of the rounded result at increment 1/4 and raw
duration 1/20. -/
theorem C2_witness : 0 < applyRounding (some (1/4)) (1/20) :=
  (C2_rounding (1/4) (1/20) (by norm_num) (by norm_num)).1

/-- Success characterization of the bound checks. -/
theorem checkBounds_ok (minB maxB : Option ℚ) (dm : ℚ) :
    checkBounds minB maxB dm = Except.ok () ↔
      ((∀ m, minB = some m → m ≤ dm) ∧ (∀ mx, maxB = some mx → dm ≤ mx)) := by
  cases minB <;> cases maxB <;> (simp [checkBounds]; try split_ifs <;> simp_all)

unseal Rat.mul Rat.inv Rat.add Rat.sub in
/-- C3. The effective duration bounds for a project with a configured rule
take each of the rule's defined min/max fields, independently falling back to
the corresponding global bound for an undefined side; a project with no rule
keeps both global bounds; validation succeeds precisely when the
minute-resolution duration lies within the effective bounds. Concretely, with
a project minimum of 30 minutes and a global minimum of 15, a 20-minute
duration (1/3 hour) fails validation for that project but passes for a
project with no override. -/
theorem C3_duration_rules :
    (∀ cfg p rule, cfg.project_duration_rules ≠ [] →
      lookupRule cfg.project_duration_rules (projectKey p) = some rule →
      effectiveBounds cfg (some p) =
        (rule.min.or cfg.min_duration_minutes, rule.max.or cfg.max_duration_minutes)) ∧
    (∀ cfg p, lookupRule cfg.project_duration_rules (projectKey p) = none →
      effectiveBounds cfg (some p) = (cfg.min_duration_minutes, cfg.max_duration_minutes)) ∧
    (∀ cfg d proj, validate_duration_rules cfg d proj = Except.ok () ↔
      ((∀ m, (effectiveBounds cfg proj).1 = some m → m ≤ d * 60) ∧
        (∀ mx, (effectiveBounds cfg proj).2 = some mx → d * 60 ≤ mx))) ∧
    validate_duration_rules cfgC3 (1/3) (some projP) = Except.error (CalcError.tooShort 30) ∧
    validate_duration_rules cfgC3 (1/3) (some projQ) = Except.ok () := by
  refine ⟨?_, ?_, ?_, by rfl, by rfl⟩
  · intro cfg p rule hne hl
    have h1 : cfg.project_duration_rules.isEmpty = false := by
      simpa [List.isEmpty_iff] using hne
    simp [effectiveBounds, h1, hl]
  · intro cfg p hl
    cases hE : cfg.project_duration_rules.isEmpty <;> simp [effectiveBounds, hE, hl]
  · intro cfg d proj
    exact checkBounds_ok _ _ _

/-- Witness for C3: the override clause evaluated at the concrete
configuration. -/
theorem C3_witness :
    effectiveBounds cfgC3 (some projP) = (some 30, none) :=
  C3_duration_rules.1 cfgC3 projP ⟨some 30, none⟩ (by simp [cfgC3]) (by decide)

/-- Digit characters are digits. -/
theorem digitChar_isDigit {k : Nat} (h : k ≤ 9) : (digitChar k).isDigit = true := by
  interval_cases k <;> decide

/-- Digit characters decode to their value. -/
theorem digitVal_digitChar {k : Nat} (h : k ≤ 9) : digitVal (digitChar k) = k := by
  interval_cases k <;> decide

/-- Formatting minutes-within-a-day and reparsing them round-trips. -/
theorem parseHHMM_formatHHMM {n : Nat} (h : n < 1440) : parseHHMM (formatHHMM n) = some n := by
  have e : (formatHHMM n).data =
      [digitChar (n / 60 % 24 / 10), digitChar (n / 60 % 24 % 10), ':',
        digitChar (n % 60 / 10), digitChar (n % 60 % 10)] := rfl
  have d1 : (digitChar (n / 60 % 24 / 10)).isDigit = true := digitChar_isDigit (by omega)
  have d2 : (digitChar (n / 60 % 24 % 10)).isDigit = true := digitChar_isDigit (by omega)
  have d3 : (digitChar (n % 60 / 10)).isDigit = true := digitChar_isDigit (by omega)
  have d4 : (digitChar (n % 60 % 10)).isDigit = true := digitChar_isDigit (by omega)
  have v1 : digitVal (digitChar (n / 60 % 24 / 10)) = n / 60 % 24 / 10 :=
    digitVal_digitChar (by omega)
  have v2 : digitVal (digitChar (n / 60 % 24 % 10)) = n / 60 % 24 % 10 :=
    digitVal_digitChar (by omega)
  have v3 : digitVal (digitChar (n % 60 / 10)) = n % 60 / 10 := digitVal_digitChar (by omega)
  have v4 : digitVal (digitChar (n % 60 % 10)) = n % 60 % 10 := digitVal_digitChar (by omega)
  unfold parseHHMM
  rw [e]
  simp only [d1, d2, d3, d4, v1, v2, v3, v4]
  simp only [if_pos, and_true, true_and, and_self, if_true]
  rw [if_pos ⟨by omega, by omega⟩]
  exact congrArg some (by omega)

/-- A successfully computed raw duration is positive. -/
theorem rawDurationOf_pos (s : Nat) (ei : String) (d : ℚ)
    (h : rawDurationOf s ei = Except.ok d) : 0 < d := by
  unfold rawDurationOf at h
  cases hpe : parse_and_validate_time_input ei with
  | some pe =>
    simp only [hpe] at h
    cases hp : parseHHMM pe with
    | some e =>
      simp only [hp] at h
      by_cases hle : e ≤ s
      · rw [if_pos hle] at h; exact absurd h (by simp)
      · rw [if_neg hle] at h
        have hd := Except.ok.inj h
        rw [← hd]
        have h1 : (0 : ℚ) < ((e - s : Nat) : ℚ) := by
          have h2 : 0 < e - s := by omega
          exact_mod_cast h2
        positivity
    | none => simp only [hp] at h; exact absurd h (by simp)
  | none =>
    simp only [hpe] at h
    cases hdec : parseDecimal ei with
    | some dd =>
      simp only [hdec] at h
      by_cases hle : dd ≤ 0
      · rw [if_pos hle] at h; exact absurd h (by simp)
      · rw [if_neg hle] at h
        have hd := Except.ok.inj h
        rw [← hd]; exact lt_of_not_le hle
    | none => simp only [hdec] at h; exact absurd h (by simp)

/-- Inversion for a successful duration calculation. -/
theorem calculate_duration_ok (cfg : Config) (sstr estr : String) (proj : Option Project)
    (eo : String) (d : ℚ) (h : calculate_duration cfg sstr estr proj = Except.ok (eo, d)) :
    ∃ s raw, parseHHMM sstr = some s ∧ rawDurationOf s estr = Except.ok raw ∧
      d = applyRounding cfg.duration_rounding_increment raw ∧
      eo = formatHHMM ((Rat.floor ((s : ℚ) + d * 60)).toNat % 1440) ∧
      validate_duration_rules cfg d proj = Except.ok () := by
  unfold calculate_duration at h
  cases hps : parseHHMM sstr with
  | none => simp only [hps] at h; exact absurd h (by simp)
  | some s =>
    simp only [hps] at h
    cases hraw : rawDurationOf s estr with
    | error e => simp only [hraw] at h; exact absurd h (by simp)
    | ok raw =>
      simp only [hraw] at h
      cases hval : validate_duration_rules cfg
          (applyRounding cfg.duration_rounding_increment raw) proj with
      | error e => simp only [hval] at h; exact absurd h (by simp)
      | ok u =>
        simp only [hval] at h
        obtain ⟨he, hd⟩ := Prod.mk.inj (Except.ok.inj h)
        refine ⟨s, raw, rfl, hraw, hd.symm, ?_, ?_⟩
        · rw [← he, hd]
        · rw [← hd, hval]

/-- C5 (amended). For every successful `calculate_duration` run whose final
(possibly rounded) duration is a whole number of minutes, the returned end
time equals the start time plus the duration's minutes, taken modulo 24
hours — so end − start, modulo a day, equals `duration_hours`. (As stated,
with a fractional-minute duration or a span crossing midnight, the exact
invariant fails: see the counterexample.) -/
theorem C5_end_time_invariant : ∀ (cfg : Config) (sstr estr : String) (proj : Option Project)
    (eo : String) (d : ℚ),
    calculate_duration cfg sstr estr proj = Except.ok (eo, d) →
    (d * 60).den = 1 →
    ∃ s, parseHHMM sstr = some s ∧
      parseHHMM eo = some ((s + (d * 60).num.toNat) % 1440) := by
  intro cfg sstr estr proj eo d h hden
  obtain ⟨s, raw, hps, hraw, hd, heo, _⟩ := calculate_duration_ok cfg sstr estr proj eo d h
  refine ⟨s, hps, ?_⟩
  have hdpos : 0 < d := hd ▸ applyRounding_pos _ _ (rawDurationOf_pos _ _ _ hraw)
  have hnum : (((d * 60).num : ℤ) : ℚ) = d * 60 := by
    have h0 := Rat.num_div_den (d * 60)
    rw [hden] at h0
    simpa using h0
  have hfloor : Rat.floor ((s : ℚ) + d * 60) = (s : ℤ) + (d * 60).num := by
    rw [rat_floor_eq]
    conv_lhs => rw [← hnum]
    rw [Int.floor_add_int, Int.floor_natCast]
  have hnumpos : 0 < (d * 60).num := Rat.num_pos.2 (by positivity)
  have htoNat : ((s : ℤ) + (d * 60).num).toNat = s + (d * 60).num.toNat := by omega
  rw [heo, hfloor, htoNat]
  exact parseHHMM_formatHHMM (Nat.mod_lt _ (by norm_num))

unseal Rat.mul Rat.inv Rat.add Rat.sub in
/-- C5 (counterexample). With no rounding configured, a start of "09:00" and
a decimal end-token of 0.33 hours, `calculate_duration` returns the pair
("09:19", 0.33): the end time is truncated to the minute, so end − start is
19 minutes, which does not equal the returned duration of 0.33 h = 19.8
minutes — the claimed invariant fails. -/
theorem C5_counterexample :
    calculate_duration cfg0 "09:00" "0.33" none = Except.ok ("09:19", 33/100) ∧
    parseHHMM "09:00" = some 540 ∧ parseHHMM "09:19" = some 559 ∧
    ((559 - 540 : ℕ) : ℚ) / 60 ≠ 33 / 100 := by
  refine ⟨rfl, rfl, rfl, by norm_num⟩

unseal Rat.mul Rat.inv Rat.add Rat.sub in
/-- Witness for C5: the amended invariant at a whole-minute run. -/
theorem C5_witness :
    ∃ s, parseHHMM "09:00" = some s ∧
      parseHHMM "10:30" = some ((s + (((3 : ℚ)/2) * 60).num.toNat) % 1440) :=
  C5_end_time_invariant cfg0 "09:00" "1030" none "10:30" (3/2) (by rfl) (by rfl)

/-- C1. For every entry with a linked ticket (and a valid stored start time,
as the Entry data model guarantees), `save_entry` issues the time-tracking
create call first — with hours rounded to 4 decimal places — and the trace is
either that single write or that write followed by the worklog attempt, never
the other order; when the create succeeded and the worklog write fails, the
run ends in the distinct recoverable `SynkError` ("Failed to add JIRA
worklog: ..."), with the already-issued create still first in the trace and
no further operation after the failed worklog — nothing rolls back or
invalidates the created entry. -/
theorem C1_save_entry_dispatch (wd : String) (e : EntryData)
    (post : MocoPayload → Option String) (wl : WorklogPayload → Option String)
    (hj : e.has_jira_issue = true)
    (hs : (parseHHMM e.start_time).isSome = true) :
    (save_entry wd e post wl).1.head? = some (WriteOp.mocoCreate (mocoPayloadOf wd e)) ∧
    (mocoPayloadOf wd e).hours = round4 e.duration_hours ∧
    ((save_entry wd e post wl).1 = [WriteOp.mocoCreate (mocoPayloadOf wd e)] ∨
      (save_entry wd e post wl).1 =
        [WriteOp.mocoCreate (mocoPayloadOf wd e),
          WriteOp.jiraWorklog (worklogPayloadOf wd e)]) ∧
    (∀ msg, post (mocoPayloadOf wd e) = none → wl (worklogPayloadOf wd e) = some msg →
      save_entry wd e post wl =
        ([WriteOp.mocoCreate (mocoPayloadOf wd e),
          WriteOp.jiraWorklog (worklogPayloadOf wd e)],
          SaveResult.synkError ("Failed to add JIRA worklog: " ++ msg))) := by
  obtain ⟨t, ht⟩ := Option.isSome_iff_exists.1 hs
  cases hpost : post (mocoPayloadOf wd e) with
  | some err =>
    simp only [save_entry, hpost]
    refine ⟨by trivial, by trivial, Or.inl (by trivial), ?_⟩
    intro msg hnone _
    exact absurd hnone (by simp)
  | none =>
    cases hwl : wl (worklogPayloadOf wd e) with
    | some m =>
      simp only [save_entry, hpost, hj, if_true, ht, hwl]
      refine ⟨by trivial, by trivial, Or.inr (by trivial), ?_⟩
      intro msg _ hsome
      rw [Option.some.inj hsome]
    | none =>
      simp only [save_entry, hpost, hj, if_true, ht, hwl]
      refine ⟨by trivial, by trivial, Or.inr (by trivial), ?_⟩
      intro msg _ hsome
      exact absurd hsome (by simp)

/-- Witness for C1: the worklog-failure clause at a concrete entry with a
linked ticket, a succeeding Moco post, and a failing worklog write. -/
theorem C1_witness :
    save_entry "2024-06-03" e1 postNone wlBoom =
      ([WriteOp.mocoCreate (mocoPayloadOf "2024-06-03" e1),
        WriteOp.jiraWorklog (worklogPayloadOf "2024-06-03" e1)],
        SaveResult.synkError ("Failed to add JIRA worklog: " ++ "boom")) :=
  (C1_save_entry_dispatch "2024-06-03" e1 postNone wlBoom rfl rfl).2.2.2 "boom" rfl rfl

/-- C8. `verify_jira_ticket` derives the prefix as the text before the first
dash, uppercased, and selects the first configured instance (in configured
iteration order) whose key set contains that prefix: when no instance's key
set contains it, the call fails with the named "no instance configured for
prefix" error; when an instance matches — every earlier instance not
containing the prefix — and its single-result exact-key search returns no
issue, the call returns the distinct `notFound` outcome, and when the search
returns an issue it returns the resolved issue; the two failure outcomes are
distinct. -/
theorem C8_verify_jira_ticket :
    (∀ (insts : List JiraInstance) (input : String),
      (∀ j ∈ insts, j.keys.contains (prefixOf input) = false) →
      verify_jira_ticket insts input = Except.error (noInstanceMsg (prefixOf input))) ∧
    (∀ (pre : List JiraInstance) (inst : JiraInstance) (post : List JiraInstance)
        (input : String),
      (∀ j ∈ pre, j.keys.contains (prefixOf input) = false) →
      inst.keys.contains (prefixOf input) = true →
      ((inst.searchExact (upperStr input) = [] →
        verify_jira_ticket (pre ++ inst :: post) input = Except.ok VerifyOutcome.notFound) ∧
      (∀ iss rest, inst.searchExact (upperStr input) = iss :: rest →
        verify_jira_ticket (pre ++ inst :: post) input =
          Except.ok (VerifyOutcome.found iss.key inst.clientId iss.summary)))) ∧
    (∀ pfx, (Except.error (noInstanceMsg pfx) : Except String VerifyOutcome) ≠
      Except.ok VerifyOutcome.notFound) := by
  refine ⟨?_, ?_, by intro pfx h; exact absurd h (by simp)⟩
  · intro insts input hnone
    have hfind : insts.find? (fun j => j.keys.contains (prefixOf input)) = none := by
      rw [List.find?_eq_none]
      intro j hj
      simpa using hnone j hj
    simp only [verify_jira_ticket, hfind]
  · intro pre inst post input hpre hinst
    have hfind : (pre ++ inst :: post).find? (fun j => j.keys.contains (prefixOf input)) =
        some inst := by
      rw [List.find?_append]
      have h1 : pre.find? (fun j => j.keys.contains (prefixOf input)) = none := by
        rw [List.find?_eq_none]
        intro j hj
        simpa using hpre j hj
      rw [h1, List.find?_cons_of_pos _ (by simpa using hinst)]
      rfl
    constructor
    · intro hsearch
      simp only [verify_jira_ticket, hfind, hsearch]
    · intro iss rest hsearch
      simp only [verify_jira_ticket, hfind, hsearch]

/-- Witness for C8: resolving "proj-123" against a single instance owning the
PROJ key whose search knows the issue. -/
theorem C8_witness :
    verify_jira_ticket [jInstA] "proj-123" =
      Except.ok (VerifyOutcome.found "PROJ-123" 7 "Fix it") :=
  (C8_verify_jira_ticket.2.1 [] jInstA [] "proj-123" (by simp) (by decide)).2
    ⟨"PROJ-123", "Fix it"⟩ [] (by decide)

/-- Lexicographic comparison at a cons pair, characterized. -/
theorem charsLe_iff (a b : Char) (as bs : List Char) :
    charsLe (a :: as) (b :: bs) = true ↔
      (a.toNat < b.toNat ∨ (a.toNat = b.toNat ∧ charsLe as bs = true)) := by
  simp only [charsLe]
  rcases Nat.lt_trichotomy a.toNat b.toNat with h | h | h
  · simp [if_pos h, h]
  · simp [if_neg (by omega : ¬ a.toNat < b.toNat), if_neg (by omega : ¬ b.toNat < a.toNat), h]
  · simp only [if_neg (by omega : ¬ a.toNat < b.toNat), if_pos h]
    constructor
    · intro hf; exact absurd hf (by simp)
    · intro hor; omega

/-- Lexicographic comparison is total. -/
theorem charsLe_total : ∀ as bs : List Char, charsLe as bs = true ∨ charsLe bs as = true := by
  intro as
  induction as with
  | nil => intro bs; exact Or.inl rfl
  | cons a as ih =>
    intro bs
    cases bs with
    | nil => exact Or.inr rfl
    | cons b bs =>
      rw [charsLe_iff, charsLe_iff]
      rcases Nat.lt_trichotomy a.toNat b.toNat with h | h | h
      · exact Or.inl (Or.inl h)
      · rcases ih bs with h2 | h2
        · exact Or.inl (Or.inr ⟨h, h2⟩)
        · exact Or.inr (Or.inr ⟨h.symm, h2⟩)
      · exact Or.inr (Or.inl h)

/-- Lexicographic comparison is transitive. -/
theorem charsLe_trans : ∀ as bs cs : List Char, charsLe as bs = true →
    charsLe bs cs = true → charsLe as cs = true := by
  intro as
  induction as with
  | nil => intro bs cs _ _; rfl
  | cons a as ih =>
    intro bs cs hab hbc
    cases bs with
    | nil => exact absurd hab (by simp [charsLe])
    | cons b bs =>
      cases cs with
      | nil => exact absurd hbc (by simp [charsLe])
      | cons c cs =>
        rw [charsLe_iff] at hab hbc ⊢
        rcases hab with h1 | ⟨h1, hr1⟩ <;> rcases hbc with h2 | ⟨h2, hr2⟩
        · exact Or.inl (by omega)
        · exact Or.inl (by omega)
        · exact Or.inl (by omega)
        · exact Or.inr ⟨by omega, ih bs cs hr1 hr2⟩

/-- The task comparator is total. -/
theorem taskLE_total (a b : DTask) : (taskLE a b || taskLE b a) = true := by
  unfold taskLE strLe
  cases ha : a.billable <;> cases hb : b.billable <;> simp [ha, hb] <;>
    exact charsLe_total _ _

/-- The task comparator is transitive. -/
theorem taskLE_trans (a b c : DTask) (hab : taskLE a b = true) (hbc : taskLE b c = true) :
    taskLE a c = true := by
  unfold taskLE strLe at hab hbc ⊢
  cases ha : a.billable <;> cases hb : b.billable <;> cases hc : c.billable <;>
    simp [ha, hb, hc] at hab hbc ⊢ <;>
    exact charsLe_trans _ _ _ hab hbc

/-- What a true comparator value means for a pair of display tasks. -/
theorem taskLE_imp {a b : DTask} (h : taskLE a b = true) :
    (a.billable = true ∧ b.billable = false) ∨
      (a.billable = b.billable ∧
        strLe (lowerStr a.display_name) (lowerStr b.display_name) = true) := by
  unfold taskLE at h
  cases ha : a.billable <;> cases hb : b.billable <;> simp [ha, hb] at h ⊢ <;> exact h

/-- C7 (amended). In every task list `get_task_choices` returns, no task
whose name matches the configured exclusion pattern appears (regardless of
billable status); every billable task precedes every non-billable one, and
inside a group tasks are ordered by their lowercased display name ascending;
and a configured but non-compiling exclusion pattern raises the fatal
configuration error whenever the project has at least one task (the pattern
is compiled lazily on first use, so with an empty task list no error is
raised — see the counterexample). -/
theorem C7_task_filter_order :
    (∀ (f : String → Bool) (dflt : Option (String → Bool)) (tasks : List Task)
        (l : List DTask) (d : Option DTask),
      get_task_choices ⟨some (some f), dflt⟩ tasks = Except.ok (l, d) →
      ∀ t ∈ l, f t.name = false) ∧
    (∀ (cfg : TaskConfig) (tasks : List Task) (l : List DTask) (d : Option DTask),
      get_task_choices cfg tasks = Except.ok (l, d) →
      l.Pairwise (fun a b =>
        (a.billable = true ∧ b.billable = false) ∨
        (a.billable = b.billable ∧
          strLe (lowerStr a.display_name) (lowerStr b.display_name) = true))) ∧
    (∀ (dflt : Option (String → Bool)) (tasks : List Task), tasks ≠ [] →
      get_task_choices ⟨some none, dflt⟩ tasks =
        Except.error "Invalid TASK_FILTER_REGEX in .env file") := by
  refine ⟨?_, ?_, ?_⟩
  · intro f dflt tasks l d h t ht
    simp only [get_task_choices, finishTasks] at h
    obtain ⟨hl, _⟩ := Prod.mk.inj (Except.ok.inj h)
    rw [← hl] at ht
    obtain ⟨t0, ht0, hteq⟩ := List.mem_map.1 (List.mem_mergeSort.1 ht)
    obtain ⟨_, hcond⟩ := List.mem_filter.1 ht0
    have hn : t.name = t0.name := by rw [← hteq]; rfl
    rw [hn]
    simpa using hcond
  · intro cfg tasks l d h
    have hl : ∃ ts : List Task, l = (ts.map mkDisplay).mergeSort taskLE := by
      cases hfilt : cfg.task_filter_regex with
      | none =>
        simp only [get_task_choices, hfilt, finishTasks] at h
        exact ⟨tasks, (Prod.mk.inj (Except.ok.inj h)).1.symm⟩
      | some om =>
        cases om with
        | none =>
          simp only [get_task_choices, hfilt] at h
          split_ifs at h with he
          · simp only [finishTasks] at h
            exact ⟨[], (Prod.mk.inj (Except.ok.inj h)).1.symm⟩
        | some f =>
          simp only [get_task_choices, hfilt, finishTasks] at h
          exact ⟨tasks.filter (fun t => !f t.name),
            (Prod.mk.inj (Except.ok.inj h)).1.symm⟩
    obtain ⟨ts, hts⟩ := hl
    rw [hts]
    exact (List.sorted_mergeSort taskLE_trans taskLE_total _).imp (fun hab => taskLE_imp hab)
  · intro dflt tasks hne
    simp [get_task_choices, List.isEmpty_iff, hne]

/-- C7 (counterexample). With a configured but non-compiling exclusion
pattern and an empty task list, `get_task_choices` raises nothing: the
pattern is never compiled and the call succeeds. -/
theorem C7_counterexample :
    get_task_choices cfgBadRegex [] = Except.ok ([], none) ∧
    ∀ msg, get_task_choices cfgBadRegex [] ≠ Except.error msg := by
  have h0 : get_task_choices cfgBadRegex [] = Except.ok ([], none) := by
    simp [get_task_choices, cfgBadRegex, finishTasks]
  exact ⟨h0, fun msg h => by rw [h0] at h; exact absurd h (by simp)⟩

/-- Witness for C7: the fatal-error clause at a one-task project. -/
theorem C7_witness :
    get_task_choices ⟨some none, none⟩ [⟨"X", true⟩] =
      Except.error "Invalid TASK_FILTER_REGEX in .env file" :=
  C7_task_filter_order.2.2 none [⟨"X", true⟩] (by simp)

/-- C6 (amended). The default task `get_task_choices` returns is the first
task of the returned **sorted** display list whose raw name matches the
configured default-name pattern — not the first of the unsorted filtered set;
there is no default when no task matches or no pattern is configured. -/
theorem C6_default_task :
    ∀ (cfg : TaskConfig) (tasks : List Task) (l : List DTask) (d : Option DTask),
      get_task_choices cfg tasks = Except.ok (l, d) →
      d = (match cfg.default_task_name with
        | some f => l.find? (fun t => f t.name)
        | none => none) := by
  intro cfg tasks l d h
  cases hfilt : cfg.task_filter_regex with
  | none =>
    simp only [get_task_choices, hfilt, finishTasks] at h
    obtain ⟨hl, hd⟩ := Prod.mk.inj (Except.ok.inj h)
    rw [← hd, ← hl]
  | some om =>
    cases om with
    | none =>
      simp only [get_task_choices, hfilt] at h
      split_ifs at h with he
      · simp only [finishTasks] at h
        obtain ⟨hl, hd⟩ := Prod.mk.inj (Except.ok.inj h)
        rw [← hd, ← hl]
    | some f =>
      simp only [get_task_choices, hfilt, finishTasks] at h
      obtain ⟨hl, hd⟩ := Prod.mk.inj (Except.ok.inj h)
      rw [← hd, ← hl]

/-- C6 (counterexample). With a default pattern matching every name and two
billable tasks configured in reverse alphabetical order, the code's default
is the alphabetically first task (first in the sorted display list), while
the first matching task of the filtered, unsorted set is the other one — so
the default does depend on the sorted display order. -/
theorem C6_counterexample :
    get_task_choices cfgC6 tasksC6 =
      Except.ok ([⟨"A", true, "A"⟩, ⟨"Z", true, "Z"⟩], some ⟨"A", true, "A"⟩) ∧
    default_from_unsorted_spec cfgC6 tasksC6 = some ⟨"Z", true, "Z"⟩ ∧
    some (⟨"A", true, "A"⟩ : DTask) ≠ some ⟨"Z", true, "Z"⟩ := by
  have hmZ : mkDisplay ⟨"Z", true⟩ = ⟨"Z", true, "Z"⟩ := by decide
  have hmA : mkDisplay ⟨"A", true⟩ = ⟨"A", true, "A"⟩ := by decide
  have hc : taskLE ⟨"Z", true, "Z"⟩ ⟨"A", true, "A"⟩ = false := by decide
  refine ⟨?_, ?_, by decide⟩
  · simp [get_task_choices, cfgC6, tasksC6, finishTasks, hmZ, hmA, List.mergeSort,
      List.merge, hc]
  · simp [default_from_unsorted_spec, cfgC6, tasksC6, hmZ, hmA]

/-- Witness for C6: the amended default-task rule at the concrete two-task
project. -/
theorem C6_witness :
    some (⟨"A", true, "A"⟩ : DTask) =
      [(⟨"A", true, "A"⟩ : DTask), ⟨"Z", true, "Z"⟩].find? (fun _ => true) :=
  C6_default_task cfgC6 tasksC6 [⟨"A", true, "A"⟩, ⟨"Z", true, "Z"⟩]
    (some ⟨"A", true, "A"⟩)
    (by
      have hmZ : mkDisplay ⟨"Z", true⟩ = ⟨"Z", true, "Z"⟩ := by decide
      have hmA : mkDisplay ⟨"A", true⟩ = ⟨"A", true, "A"⟩ := by decide
      have hc : taskLE ⟨"Z", true, "Z"⟩ ⟨"A", true, "A"⟩ = false := by decide
      simp [get_task_choices, cfgC6, tasksC6, finishTasks, hmZ, hmA, List.mergeSort,
        List.merge, hc])

/-- C9 (amended). In every task list `get_task_choices` returns, each task's
display name is a pure function of its name and billable flag: the name with
any `'|'`-suffixed qualifier stripped (text before the first `'|'`, trimmed
of surrounding whitespace), left unchanged when billable and — when
non-billable — wrapped in parentheses **preceded by a space**. -/
theorem C9_display_name :
    ∀ (cfg : TaskConfig) (tasks : List Task) (l : List DTask) (d : Option DTask),
      get_task_choices cfg tasks = Except.ok (l, d) →
      ∀ t ∈ l, t.display_name =
        (if t.billable then baseNameOf t.name else " (" ++ baseNameOf t.name ++ ")") := by
  intro cfg tasks l d h t ht
  have hl : ∃ ts : List Task, l = (ts.map mkDisplay).mergeSort taskLE := by
    cases hfilt : cfg.task_filter_regex with
    | none =>
      simp only [get_task_choices, hfilt, finishTasks] at h
      exact ⟨tasks, (Prod.mk.inj (Except.ok.inj h)).1.symm⟩
    | some om =>
      cases om with
      | none =>
        simp only [get_task_choices, hfilt] at h
        split_ifs at h with he
        · simp only [finishTasks] at h
          exact ⟨[], (Prod.mk.inj (Except.ok.inj h)).1.symm⟩
      | some f =>
        simp only [get_task_choices, hfilt, finishTasks] at h
        exact ⟨tasks.filter (fun t => !f t.name),
          (Prod.mk.inj (Except.ok.inj h)).1.symm⟩
  obtain ⟨ts, hts⟩ := hl
  rw [hts] at ht
  obtain ⟨t0, _, hteq⟩ := List.mem_map.1 (List.mem_mergeSort.1 ht)
  rw [← hteq]
  rfl

/-- C9 (counterexample). A non-billable task named "Admin" gets the display
name " (Admin)" — with a leading space — which differs from the plain
parenthesization "(Admin)" that the claim describes. -/
theorem C9_counterexample :
    get_task_choices cfgPlain [⟨"Admin", false⟩] =
      Except.ok ([⟨"Admin", false, " (Admin)"⟩], none) ∧
    (⟨"Admin", false, " (Admin)"⟩ : DTask).display_name ≠
      "(" ++ baseNameOf "Admin" ++ ")" := by
  have hm : mkDisplay ⟨"Admin", false⟩ = ⟨"Admin", false, " (Admin)"⟩ := by decide
  refine ⟨?_, by decide⟩
  simp [get_task_choices, cfgPlain, finishTasks, hm, List.mergeSort]

/-- Witness for C9: the amended display-name rule at the concrete
non-billable task. -/
theorem C9_witness :
    (⟨"Admin", false, " (Admin)"⟩ : DTask).display_name =
      (if (⟨"Admin", false, " (Admin)"⟩ : DTask).billable
        then baseNameOf (⟨"Admin", false, " (Admin)"⟩ : DTask).name
        else " (" ++ baseNameOf (⟨"Admin", false, " (Admin)"⟩ : DTask).name ++ ")") :=
  C9_display_name cfgPlain [⟨"Admin", false⟩] [⟨"Admin", false, " (Admin)"⟩] none
    (by
      have hm : mkDisplay ⟨"Admin", false⟩ = ⟨"Admin", false, " (Admin)"⟩ := by decide
      simp [get_task_choices, cfgPlain, finishTasks, hm, List.mergeSort])
    ⟨"Admin", false, " (Admin)"⟩ (by simp)

/-- C4. For every input string, `parse_and_validate_time_input` returns a
normalized `"HH:MM"` string iff the input consists entirely of decimal
digits, has length 3 or 4 (a 3-digit input being left-padded with one zero,
as `hourOf`/`minuteOf` do), and the resulting hour is in [0,23] and minute in
[0,59]; for any other input it returns the failure sentinel `none`; in
particular "800" → "08:00", "1730" → "17:30", and "2400", "1260", "8",
"12345" all fail. -/
theorem C4_parse_and_validate_time_input :
    (∀ s : String, (parse_and_validate_time_input s).isSome = true ↔
      (s.data.all Char.isDigit = true ∧ 3 ≤ s.length ∧ s.length ≤ 4 ∧
        hourOf s ≤ 23 ∧ minuteOf s ≤ 59)) ∧
    (∀ s r, parse_and_validate_time_input s = some r →
      r = two_digit (hourOf s) ++ ":" ++ two_digit (minuteOf s)) ∧
    parse_and_validate_time_input "800" = some "08:00" ∧
    parse_and_validate_time_input "1730" = some "17:30" ∧
    parse_and_validate_time_input "2400" = none ∧
    parse_and_validate_time_input "1260" = none ∧
    parse_and_validate_time_input "8" = none ∧
    parse_and_validate_time_input "12345" = none := by
  refine ⟨?_, ?_, by decide, by decide, by decide, by decide, by decide, by decide⟩
  · intro s
    unfold parse_and_validate_time_input
    split_ifs with h1 h2
    · exact iff_of_true rfl ⟨h1.1, h1.2.1, h1.2.2, h2.1, h2.2⟩
    · exact iff_of_false (by simp) (fun hr => h2 ⟨hr.2.2.2.1, hr.2.2.2.2⟩)
    · exact iff_of_false (by simp) (fun hr => h1 ⟨hr.1, hr.2.1, hr.2.2.1⟩)
  · intro s r h
    unfold parse_and_validate_time_input at h
    split_ifs at h
    · exact (Option.some.inj h).symm

/-- Witness for C4: the general normalization clause applied to "1730". -/
theorem C4_witness :
    "17:30" = two_digit (hourOf "1730") ++ ":" ++ two_digit (minuteOf "1730") :=
  C4_parse_and_validate_time_input.2.1 "1730" "17:30" (by decide)

/-- C10. `get_last_activity` returns `none` when the backend returns no
activities, and otherwise returns an activity of the list whose id (missing
ids reading as 0) is maximal; "last" is decided by the highest numeric id,
not by any time tag embedded in the descriptions — in the concrete example
the activity with id 5 wins although the other one's description carries the
later time tag. -/
theorem C10_get_last_activity :
    get_last_activity [] = none ∧
    (∀ l a, get_last_activity l = some a →
      a ∈ l ∧ ∀ b ∈ l, activityIdKey b ≤ activityIdKey a) ∧
    (∀ l, l ≠ [] → (get_last_activity l).isSome = true) ∧
    get_last_activity [⟨some 5, "(0900-1000)"⟩, ⟨some 3, "(1500-1600)"⟩] =
      some ⟨some 5, "(0900-1000)"⟩ := by
  refine ⟨rfl, ?_, ?_, ?_⟩
  · intro l a h
    unfold get_last_activity at h
    split at h
    · exact absurd h (by simp)
    · have hsorted :
          (l.mergeSort (fun a b => decide (activityIdKey b ≤ activityIdKey a))).Pairwise
            (fun a b => decide (activityIdKey b ≤ activityIdKey a) = true) :=
        List.sorted_mergeSort
          (by intro x y z hxy hyz; simp only [decide_eq_true_eq] at *; omega)
          (by intro x y; simp only [Bool.or_eq_true, decide_eq_true_eq]; omega) l
      cases hs : l.mergeSort (fun a b => decide (activityIdKey b ≤ activityIdKey a)) with
      | nil => rw [hs] at h; exact absurd h (by simp)
      | cons x t =>
        rw [hs] at h
        simp only [List.head?_cons, Option.some.injEq] at h
        rw [h] at hs
        have hax : a ∈ l.mergeSort (fun a b => decide (activityIdKey b ≤ activityIdKey a)) := by
          rw [hs]; exact List.mem_cons_self _ _
        refine ⟨List.mem_mergeSort.1 hax, ?_⟩
        intro b hb
        have hb' : b ∈ l.mergeSort (fun a b => decide (activityIdKey b ≤ activityIdKey a)) :=
          List.mem_mergeSort.2 hb
        rw [hs] at hb' hsorted
        rcases List.mem_cons.1 hb' with h1 | h2
        · subst h1; exact le_refl _
        · have := (List.pairwise_cons.1 hsorted).1 b h2
          simpa using this
  · intro l hl
    unfold get_last_activity
    split
    · rename_i he; exact absurd (List.isEmpty_iff.1 he) hl
    · cases hs : l.mergeSort (fun a b => decide (activityIdKey b ≤ activityIdKey a)) with
      | nil =>
        have := congrArg List.length hs
        simp at this
        exact absurd this hl
      | cons x t => simp
  · simp [get_last_activity, List.mergeSort, List.merge, activityIdKey]

/-- Witness for C10: the maximality clause applied to the concrete two-row
day. -/
theorem C10_witness :
    (⟨some 5, "(0900-1000)"⟩ : Activity) ∈
        [(⟨some 5, "(0900-1000)"⟩ : Activity), ⟨some 3, "(1500-1600)"⟩] ∧
      ∀ b ∈ [(⟨some 5, "(0900-1000)"⟩ : Activity), ⟨some 3, "(1500-1600)"⟩],
        activityIdKey b ≤ activityIdKey ⟨some 5, "(0900-1000)"⟩ :=
  C10_get_last_activity.2.1 _ _ C10_get_last_activity.2.2.2

end Synk
